import Mathlib

/-!
Verification development for the zip-fs overlay filesystem
(`src/zipHandle.ts`, `src/path.ts`, `src/errors.ts`, `src/types.ts`).

The handle state is embedded shallowly: JS `Map`s become association
lists with JS `Map.set`/`Map.delete` semantics, JS `Set`s become
duplicate-free lists with insertion-order `add`, byte buffers become
`List Nat`, wall-clock times become `Nat` millisecond values passed in
explicitly, and the external archive codec (yauzl/yazl) is modelled by
carrying each entry's decompressed bytes in the base index.  The
delegated archive-naming validator (`yauzl.validateFileName`) is an
external collaborator, so it is a parameter `validate : String → Bool`
of the configuration.  `path.isAbsolute` is modelled for the POSIX
platform (a path is absolute iff it starts with `/`).
-/

namespace ZipFS

/-- Byte buffers (`Buffer` in the source) as lists of byte values. -/
abbrev Bytes := List Nat

/-- Decidable equality for `Except` results, used to evaluate the model
at concrete inputs. -/
instance {ε α : Type} [DecidableEq ε] [DecidableEq α] :
    DecidableEq (Except ε α) := fun x y =>
  match x, y with
  | .ok a, .ok b =>
    if h : a = b then .isTrue (by rw [h]) else .isFalse (by simp [h])
  | .error a, .error b =>
    if h : a = b then .isTrue (by rw [h]) else .isFalse (by simp [h])
  | .ok _, .error _ => .isFalse (by simp)
  | .error _, .ok _ => .isFalse (by simp)

/-- Error taxonomy of `src/errors.ts` plus the `InvalidPath` errors thrown
by `normalizePath` (which the source throws as plain `Error`s). -/
inductive FSErr where
  | enoent (p : String)
  | eisdir (p : String)
  | enotdir (p : String)
  | eexist (p : String)
  | invalidPath (p : String)
deriving Repr, DecidableEq

/-- Overlay entry (`OverlayEntry` in `src/types.ts`): a memory blob or a
disk-staged blob.  The staging file's bytes are carried directly in the
`disk` variant (the model of the staging side-file's content). -/
inductive OverlayEntry where
  | memory (data : Bytes) (mtime : Nat) (mode : Option Nat)
  | disk (content : Bytes) (size : Nat) (mtime : Nat) (mode : Option Nat)
deriving Repr, DecidableEq

/-- Base-index entry (`EntryMeta` in `src/types.ts`).  The yauzl content
handle is modelled by the entry's decompressed bytes. -/
structure EntryMeta where
  isDirectory : Bool
  size : Nat
  mtime : Nat
  mode : Option Nat
  content : Bytes
deriving Repr, DecidableEq

/-- Result shape of `stat` (`StatsLike` in `src/types.ts`); the
`isFile()`/`isDirectory()` closures become plain booleans and
`mtime`/`mtimeMs` collapse to one millisecond value. -/
structure Stats where
  isFile : Bool
  isDirectory : Bool
  size : Nat
  mtimeMs : Nat
  mode : Option Nat
deriving Repr, DecidableEq

/-! ### JS `Map` / `Set` semantics over association lists -/

/-- JS `Map.get`. -/
def mget {α : Type} : List (String × α) → String → Option α
  | [], _ => none
  | e :: rest, k => if e.1 == k then some e.2 else mget rest k

/-- JS `Map.has`. -/
def mhas {α : Type} (m : List (String × α)) (k : String) : Bool :=
  (mget m k).isSome

/-- JS `Map.set`: replace the binding in place, else append. -/
def mset {α : Type} : List (String × α) → String → α → List (String × α)
  | [], k, v => [(k, v)]
  | e :: rest, k, v => if e.1 == k then (k, v) :: rest else e :: mset rest k v

/-- JS `Map.delete`. -/
def mdel {α : Type} (m : List (String × α)) (k : String) : List (String × α) :=
  m.filter (fun e => e.1 != k)

/-- JS `Set.add`: append if absent. -/
def sadd (s : List String) (k : String) : List String :=
  if s.contains k then s else s ++ [k]

/-- JS `Set.delete`. -/
def sdel (s : List String) (k : String) : List String :=
  s.filter (fun x => x != k)

/-! ### String helpers mirroring the JS string operations -/

/-- JS `p.split(sep)` over the character list; total and structural. -/
def splitCh (sep : Char) : List Char → List (List Char)
  | [] => [[]]
  | c :: rest =>
    let r := splitCh sep rest
    if c == sep then [] :: r
    else (c :: r.headD []) :: r.tail

/-- JS `p.split("/")`. -/
def splitSlash (s : String) : List String :=
  (splitCh '/' s.data).map String.mk

/-- JS `parts.join("/")`. -/
def joinSep : List String → String
  | [] => ""
  | [s] => s
  | s :: rest => s ++ "/" ++ joinSep rest

/-- JS `p.replace(/\\/g, "/")`: the single-character pattern makes this a
character-wise substitution. -/
def normSeps (p : String) : String :=
  ⟨p.data.map (fun c => if c == '\\' then '/' else c)⟩

/-- JS `.replace(/^\/+/, "")` applied after separator normalisation. -/
def stripLead (p : String) : String :=
  ⟨(normSeps p).data.dropWhile (fun c => c == '/')⟩

/-- Substring test on character lists (JS `String.prototype.includes`). -/
def hasSubAux : List Char → List Char → Bool
  | l@(_ :: t), sub => sub.isPrefixOf l || hasSubAux t sub
  | [], sub => sub.isEmpty

/-- JS `s.includes(sub)`. -/
def includesStr (s sub : String) : Bool :=
  hasSubAux s.data sub.data

/-- Node `path.isAbsolute` on the POSIX platform. -/
def isAbsolute (p : String) : Bool :=
  p.data.head? == some '/'

/-- Lexicographic (code-unit) comparison, JS default array sort order for
strings. -/
def charsLe : List Char → List Char → Bool
  | [], _ => true
  | _ :: _, [] => false
  | a :: as, b :: bs => if a == b then charsLe as bs else decide (a < b)

/-- String order used to model `Array.prototype.sort()`. -/
def strLe (a b : String) : Bool := charsLe a.data b.data

/-- Insertion into a sorted list. -/
def insertSorted (x : String) : List String → List String
  | [] => [x]
  | y :: t => if strLe x y then x :: y :: t else y :: insertSorted x t

/-- Sorting, modelling `Array.from(children).sort()`. -/
def sortStr (l : List String) : List String :=
  l.foldr insertSorted []

/-! ### Path normalisation (`src/path.ts`, `normalizePath`) -/

/-- `normalizePath` from `src/path.ts`: rejects absolute paths, converts
backslashes, strips leading slashes, rejects `..` as a substring, then
delegates to the archive-naming validator `V` (true = accepted). -/
def normalizePath (V : String → Bool) (p : String) : Except FSErr String :=
  if isAbsolute p then .error (.invalidPath p)
  else if includesStr (stripLead p) ".." then .error (.invalidPath p)
  else if !(V (stripLead p)) then .error (.invalidPath (stripLead p))
  else .ok (stripLead p)

/-! ### Handle state and configuration -/

/-- The mutable state of one open handle (`zipHandle.ts` closure state):
base index `entries`/`dirs`, overlay `overlayFiles`/`overlayDirs`,
deletion set `deleted`, and whether a base archive session is open. -/
structure ZState where
  entries : List (String × EntryMeta)
  dirs : List (String × List String)
  overlayFiles : List (String × OverlayEntry)
  overlayDirs : List String
  deleted : List String
  zipfileOpen : Bool
deriving Repr, DecidableEq

/-- Open-time options that are observable in the model: the delegated
naming validator, the overlay mode (`true` = "memory", `false` = "disk")
and `preserveOverlayOnCommit`.  `compressOnWrite`, `tmpSuffix` and
`overlayDir` only affect the on-disk byte layout, not the merged view. -/
structure Config where
  validate : String → Bool
  overlayMemory : Bool
  preserveOverlayOnCommit : Bool

/-! ### Helpers from `zipHandle.ts` -/

/-- `ensureParentDirs` (zipHandle.ts:135): adds `parts.slice(0, i+1)` for
`1 ≤ i < parts.length - 1` to the explicit overlay-directory set.  The
loop starts at `i = 1`, so the single-segment ancestor is never added. -/
def ensureParentDirs (od : List String) (p : String) : List String :=
  let parts := splitSlash p
  (List.range parts.length).foldl
    (fun acc i =>
      if 1 ≤ i && i + 1 < parts.length then sadd acc (joinSep (parts.take (i + 1)))
      else acc) od

/-- `pathExists` (zipHandle.ts:149). -/
def pathExists (s : ZState) (p : String) : Bool :=
  if s.deleted.contains p then false
  else mhas s.overlayFiles p || s.overlayDirs.contains p || mhas s.entries p

/-- The proper prefixes scanned by `isDirectoryPath`'s inner loop:
`parts.slice(0, i)` for `1 ≤ i < parts.length`. -/
def properPrefixes (filePath : String) : List String :=
  let parts := splitSlash filePath
  ((List.range parts.length).filter (fun i => 1 ≤ i)).map
    (fun i => joinSep (parts.take i))

/-- `isDirectoryPath` (zipHandle.ts:157): explicit overlay directory, base
directory entry, or a proper prefix of a live overlay file's key. -/
def isDirectoryPath (s : ZState) (p : String) : Bool :=
  s.overlayDirs.contains p
  || (match mget s.entries p with
      | some m => m.isDirectory
      | none => false)
  || s.overlayFiles.any
      (fun e => !s.deleted.contains e.1 && (properPrefixes e.1).contains p)

/-- Size reported for an overlay entry by `stat` (zipHandle.ts:186):
`data.length` for memory blobs, the stored `size` field for disk blobs. -/
def entryStatSize : OverlayEntry → Nat
  | .memory data _ _ => data.length
  | .disk _ size _ _ => size

/-- Stored modification time of an overlay entry. -/
def entryMtime : OverlayEntry → Nat
  | .memory _ t _ => t
  | .disk _ _ t _ => t

/-- Stored mode of an overlay entry. -/
def entryMode : OverlayEntry → Option Nat
  | .memory _ _ md => md
  | .disk _ _ _ md => md

/-- The blob bytes of an overlay entry: the memory buffer, or the staged
file's content (read back from disk in the source). -/
def entryData : OverlayEntry → Bytes
  | .memory data _ _ => data
  | .disk content _ _ _ => content

/-! ### Query operations -/

/-- Body of `stat` (zipHandle.ts:180) after path normalisation; `now` is
the wall-clock time read by `new Date()`. -/
def statCore (s : ZState) (n : String) (now : Nat) : Except FSErr Stats :=
  match mget s.overlayFiles n with
  | some e => .ok ⟨true, false, entryStatSize e, entryMtime e, entryMode e⟩
  | none =>
    if s.overlayDirs.contains n then .ok ⟨false, true, 0, now, none⟩
    else if s.deleted.contains n then .error (.enoent n)
    else
      match mget s.entries n with
      | some m => .ok ⟨!m.isDirectory, m.isDirectory, m.size, m.mtime, m.mode⟩
      | none =>
        if isDirectoryPath s n then .ok ⟨false, true, 0, now, none⟩
        else .error (.enoent n)

/-- `stat` (zipHandle.ts:180): the empty path is passed through without
normalisation. -/
def statOp (cfg : Config) (s : ZState) (p : String) (now : Nat) :
    Except FSErr Stats :=
  if p = "" then statCore s "" now
  else (normalizePath cfg.validate p).bind (fun n => statCore s n now)

/-- Body of `readFile` (zipHandle.ts:255) after path normalisation. -/
def readFileCore (s : ZState) (n : String) : Except FSErr Bytes :=
  match mget s.overlayFiles n with
  | some e => .ok (entryData e)
  | none =>
    if s.overlayDirs.contains n then .error (.eisdir n)
    else if s.deleted.contains n then .error (.enoent n)
    else if isDirectoryPath s n then .error (.eisdir n)
    else
      match mget s.entries n with
      | none => .error (.enoent n)
      | some m =>
        if m.isDirectory then .error (.eisdir n)
        else if !s.zipfileOpen then .error (.enoent n)
        else .ok m.content

/-- `readFile` (zipHandle.ts:255). -/
def readFileOp (cfg : Config) (s : ZState) (p : String) : Except FSErr Bytes :=
  (normalizePath cfg.validate p).bind (fun n => readFileCore s n)

/-- Body of `readdir` (zipHandle.ts:303) after path normalisation. -/
def readdirCore (s : ZState) (n : String) : Except FSErr (List String) :=
  if s.deleted.contains n then .error (.enoent n)
  else
    let meta := mget s.entries n
    let inOverlayDirs := s.overlayDirs.contains n
    let inOverlayFiles := mhas s.overlayFiles n
    let isDir := isDirectoryPath s n
    let err : Option FSErr :=
      if !isDir && n != "" then
        if inOverlayFiles then some (.enotdir n)
        else if (match meta with
                 | some m => !m.isDirectory
                 | none => false) then some (.enotdir n)
        else if meta.isNone && !inOverlayDirs && !isDir then some (.enoent n)
        else none
      else none
    match err with
    | some e => .error e
    | none =>
      let c0 := ((mget s.dirs n).getD []).foldl sadd []
      let c1 := s.overlayFiles.foldl
        (fun acc e =>
          if s.deleted.contains e.1 then acc
          else
            let parts := splitSlash e.1
            if parts.length > 1 && joinSep parts.dropLast == n then
              match parts.getLast? with
              | some lp => sadd acc lp
              | none => acc
            else if n == "" && parts.length == 1 then sadd acc e.1
            else acc) c0
      let c2 := s.overlayDirs.foldl
        (fun acc d =>
          let parts := splitSlash d
          if parts.length > 1 && joinSep parts.dropLast == n then
            match parts.getLast? with
            | some lp => sadd acc lp
            | none => acc
          else if n == "" && parts.length == 1 then sadd acc d
          else acc) c1
      .ok (sortStr c2)

/-- `readdir` (zipHandle.ts:303): the empty path denotes the root and is
passed through without normalisation. -/
def readdirOp (cfg : Config) (s : ZState) (p : String) :
    Except FSErr (List String) :=
  if p = "" then readdirCore s ""
  else (normalizePath cfg.validate p).bind (fun n => readdirCore s n)

/-! ### Mutating operations

Each returns the outcome together with the post-call state: the source
mutates closure state in place, so a throw can leave mutations behind. -/

/-- `writeFile` (zipHandle.ts:445).  `mtime` is the caller-supplied or
wall-clock time, `mode` the optional mode option. -/
def writeFileOp (cfg : Config) (s : ZState) (p : String) (data : Bytes)
    (mtime : Nat) (mode : Option Nat) : Except FSErr Unit × ZState :=
  match normalizePath cfg.validate p with
  | .error e => (.error e, s)
  | .ok n =>
    let s := { s with overlayDirs := ensureParentDirs s.overlayDirs n }
    let entry :=
      if cfg.overlayMemory then OverlayEntry.memory data mtime mode
      else OverlayEntry.disk data data.length mtime mode
    (.ok (), { s with overlayFiles := mset s.overlayFiles n entry,
                      deleted := sdel s.deleted n })

/-- Body of `mkdir` (zipHandle.ts:497-528) applied to the state in which
the key's pending deletion has already been cleared. -/
def mkdirCore (s : ZState) (n : String) (recursive : Bool) :
    Except FSErr Unit × ZState :=
  if s.overlayDirs.contains n then
    if !recursive then (.error (.eexist n), s) else (.ok (), s)
  else if (mget s.entries n).isSome then
    if !recursive then (.error (.eexist n), s) else (.ok (), s)
  else if recursive then
    (.ok (), { s with overlayDirs := sadd (ensureParentDirs s.overlayDirs n) n })
  else if (splitSlash n).length > 1 then
    if !pathExists s (joinSep (splitSlash n).dropLast)
        && !isDirectoryPath s (joinSep (splitSlash n).dropLast) then
      (.error (.enoent (joinSep (splitSlash n).dropLast)), s)
    else (.ok (), { s with overlayDirs := sadd s.overlayDirs n })
  else (.ok (), { s with overlayDirs := sadd s.overlayDirs n })

/-- `mkdir` (zipHandle.ts:491).  Note the deletion-set entry for the key
is cleared before any of the error checks run. -/
def mkdirOp (cfg : Config) (s : ZState) (p : String) (recursive : Bool) :
    Except FSErr Unit × ZState :=
  match normalizePath cfg.validate p with
  | .error e => (.error e, s)
  | .ok n => mkdirCore { s with deleted := sdel s.deleted n } n recursive

/-- `unlink` (zipHandle.ts:531). -/
def unlinkOp (cfg : Config) (s : ZState) (p : String) :
    Except FSErr Unit × ZState :=
  match normalizePath cfg.validate p with
  | .error e => (.error e, s)
  | .ok n =>
    if s.deleted.contains n then (.error (.enoent n), s)
    else if s.overlayDirs.contains n then (.error (.eisdir n), s)
    else if isDirectoryPath s n then (.error (.eisdir n), s)
    else if mhas s.overlayFiles n then
      (.ok (), { s with overlayFiles := mdel s.overlayFiles n })
    else
      match mget s.entries n with
      | none => (.error (.enoent n), s)
      | some m =>
        if m.isDirectory then (.error (.eisdir n), s)
        else (.ok (), { s with deleted := sadd s.deleted n })

/-! ### Base archive, index build (`openAndScanZip`) and `commit` -/

/-- One entry of an archive container as the codec enumerates it: the
raw name (directories carry a trailing `/`), the decompressed bytes,
the modification time and the mode bits. -/
structure ArchEntry where
  fileName : String
  content : Bytes
  mtime : Nat
  mode : Option Nat
deriving Repr, DecidableEq

/-- An archive container is the codec's entry enumeration in order. -/
abbrev Archive := List ArchEntry

/-- Add `child` to `parent`'s child set in the parent→children index. -/
def dadd (dirs : List (String × List String)) (parent child : String) :
    List (String × List String) :=
  mset dirs parent (sadd ((mget dirs parent).getD []) child)

/-- Processing of one enumerated entry in `openAndScanZip`
(zipHandle.ts:62-115): record the entry under its key (trailing `/`
stripped for directories, last enumeration wins) and register
parent→children edges; a root edge is added only for single-segment
names. -/
def addBaseEntry (acc : List (String × EntryMeta) × List (String × List String))
    (e : ArchEntry) : List (String × EntryMeta) × List (String × List String) :=
  let isDir := e.fileName.data.getLast? == some '/'
  let key := if isDir then String.mk e.fileName.data.dropLast else e.fileName
  let meta : EntryMeta :=
    if isDir then ⟨true, 0, e.mtime, e.mode, []⟩
    else ⟨false, e.content.length, e.mtime, e.mode, e.content⟩
  let entries := mset acc.1 key meta
  let parts := (splitSlash e.fileName).filter (fun x => x != "")
  let dirs :=
    if parts.length == 1 then
      match parts.head? with
      | some p0 => dadd acc.2 "" p0
      | none => acc.2
    else acc.2
  let dirs := (List.range parts.length).foldl
    (fun ds i =>
      if i + 1 < parts.length then
        match parts.get? (i + 1) with
        | some nextPart => dadd ds (joinSep (parts.take (i + 1))) nextPart
        | none => ds
      else ds) dirs
  (entries, dirs)

/-- Base index built by scanning an archive (`openAndScanZip`). -/
def buildIndex (a : Archive) :
    List (String × EntryMeta) × List (String × List String) :=
  a.foldl addBaseEntry ([], [])

/-- State after `open`: no archive file yields an empty index with no
open codec session; otherwise the index of the scanned archive. -/
def initState (arch : Option Archive) : ZState :=
  match arch with
  | none => ⟨[], [], [], [], [], false⟩
  | some a =>
    let idx := buildIndex a
    ⟨idx.1, idx.2, [], [], [], true⟩

/-- The archive serialised by `commit` (zipHandle.ts:575): live overlay
files first, then base files neither deleted nor shadowed (lazy
pass-through of their bytes; base *directory* entries are skipped), then
live explicit overlay directories as empty-directory markers stamped
with the wall-clock time `now`. -/
def commitArchive (s : ZState) (now : Nat) : Archive :=
  let overlayOut : Archive := s.overlayFiles.filterMap
    (fun e =>
      if s.deleted.contains e.1 then none
      else some ⟨e.1, entryData e.2, entryMtime e.2, entryMode e.2⟩)
  let baseOut : Archive := s.entries.filterMap
    (fun e =>
      if s.deleted.contains e.1 || mhas s.overlayFiles e.1 then none
      else if e.2.isDirectory then none
      else if !s.zipfileOpen then none
      else some ⟨e.1, e.2.content, e.2.mtime, e.2.mode⟩)
  let dirOut : Archive := s.overlayDirs.filterMap
    (fun d =>
      if s.deleted.contains d then none
      else some ⟨d ++ "/", [], now, none⟩)
  overlayOut ++ baseOut ++ dirOut

/-- `commit` (zipHandle.ts:575): write the merged view atomically, rescan
it as the new base index, and clear the overlay unless configured to
preserve it.  The active-read-stream gate concerns the unmodelled lazy
stream API and cannot fire in this model. -/
def commitOp (cfg : Config) (s : ZState) (now : Nat) : ZState :=
  if cfg.preserveOverlayOnCommit then
    { s with entries := (buildIndex (commitArchive s now)).1,
             dirs := (buildIndex (commitArchive s now)).2,
             zipfileOpen := true }
  else
    ⟨(buildIndex (commitArchive s now)).1, (buildIndex (commitArchive s now)).2,
      [], [], [], true⟩

/-! ### Reachable handle states -/

/-- States reachable from `open` on an arbitrary container (or none)
through the mutating operations; a failed call contributes its post-call
state too, since the source mutates in place before throwing. -/
inductive Reach (cfg : Config) : ZState → Prop where
  | init (arch : Option Archive) : Reach cfg (initState arch)
  | wr (s : ZState) (p : String) (d : Bytes) (t : Nat) (md : Option Nat) :
      Reach cfg s → Reach cfg (writeFileOp cfg s p d t md).2
  | mkd (s : ZState) (p : String) (r : Bool) :
      Reach cfg s → Reach cfg (mkdirOp cfg s p r).2
  | unl (s : ZState) (p : String) :
      Reach cfg s → Reach cfg (unlinkOp cfg s p).2
  | cmt (s : ZState) (now : Nat) :
      Reach cfg s → Reach cfg (commitOp cfg s now)

/-- Configuration used for concrete evaluations: a validator that
accepts every name (the shipped yauzl validator accepts every name that
survives `normalizePath`'s own absolute/backslash/`..` checks, including
the empty string), memory overlay mode, no overlay preservation. -/
def cfg0 : Config := ⟨fun _ => true, true, false⟩

/-! ### Specification-side restatement of the `stat` precedence (claim C8) -/

/-- Implicit directory in the sense of the spec: a proper prefix of some
live (non-deleted) overlay file's key. -/
def implicitDirOfLiveFiles (s : ZState) (n : String) : Bool :=
  s.overlayFiles.any
    (fun e => !s.deleted.contains e.1 && (properPrefixes e.1).contains n)

/-- Tail of the claimed `stat` precedence after the live-overlay-file
case: explicit overlay directory, then deleted key, then base entry,
then implicit directory from live overlay file prefixes, else NotFound. -/
def statRefRest (s : ZState) (n : String) (now : Nat) : Except FSErr Stats :=
  if s.overlayDirs.contains n then .ok ⟨false, true, 0, now, none⟩
  else if s.deleted.contains n then .error (.enoent n)
  else
    match mget s.entries n with
    | some m => .ok ⟨!m.isDirectory, m.isDirectory, m.size, m.mtime, m.mode⟩
    | none =>
      if implicitDirOfLiveFiles s n then .ok ⟨false, true, 0, now, none⟩
      else .error (.enoent n)

/-- The `stat` resolution order exactly as claim C8 states it, written
from the claim's words: a *live* overlay file wins first and is reported
as a file whose size is its blob length. -/
def statRef (s : ZState) (n : String) (now : Nat) : Except FSErr Stats :=
  match mget s.overlayFiles n with
  | some e =>
    if s.deleted.contains n then statRefRest s n now
    else .ok ⟨true, false, (entryData e).length, entryMtime e, entryMode e⟩
  | none => statRefRest s n now

/-! ### Concrete scenarios used by the claim theorems -/

/-- Base archive holding one file `f` with bytes `[1, 2, 3]`. -/
def archC1 : Archive := [⟨"f", [1, 2, 3], 0, none⟩]

/-- State after `open` on `archC1`, `writeFile("f", [9])`. -/
def sC1w : ZState := (writeFileOp cfg0 (initState (some archC1)) "f" [9] 0 none).2

/-- State after `open` on an absent container and
`mkdir("a/b/c", recursive: true)`. -/
def sC2 : ZState := (mkdirOp cfg0 (initState none) "a/b/c" true).2

/-- State after `open` on an absent container and `mkdir("d")`. -/
def sC3a : ZState := (mkdirOp cfg0 (initState none) "d" false).2

/-- `sC3a` after a first `commit` (at time 5). -/
def sC3b : ZState := commitOp cfg0 sC3a 5

/-- `sC3b` after a second `commit` (at time 6) with no staged changes. -/
def sC3c : ZState := commitOp cfg0 sC3b 6

/-- State after `open` on `archC1` and `unlink("f")`. -/
def sC4 : ZState := (unlinkOp cfg0 (initState (some archC1)) "f").2

/-- State after `open` on an absent container and
`writeFile("a/b.txt", [1])`. -/
def sC5 : ZState := (writeFileOp cfg0 (initState none) "a/b.txt" [1] 0 none).2

/-- State after `open` on an absent container and `writeFile("p", [1])`. -/
def sC7 : ZState := (writeFileOp cfg0 (initState none) "p" [1] 0 none).2

/-- State after `open` on an absent container and
`mkdir("a/b", recursive: true)`. -/
def sC7b : ZState := (mkdirOp cfg0 (initState none) "a/b" true).2

/-- Base archive holding one file `a/b`. -/
def archC9 : Archive := [⟨"a/b", [1], 0, none⟩]

/-- State after `open` on `archC9`, `unlink("a/b")`. -/
def sC9u : ZState := (unlinkOp cfg0 (initState (some archC9)) "a/b").2

/-- `sC9u` after `writeFile("a/b/x", [1])`: the write synthesizes the
ancestor directory `a/b` while `a/b` stays in the deletion set. -/
def sC9 : ZState := (writeFileOp cfg0 sC9u "a/b/x" [1] 0 none).2

/-- State after `open` on an absent container and `mkdir("")`: the empty
key is accepted by `normalizePath` (the shipped validator accepts it)
and lands in the explicit overlay-directory set. -/
def sC10 : ZState := (mkdirOp cfg0 (initState none) "" false).2

/-! ## Basic lemmas about the JS map/set embeddings -/

theorem contains_iff (l : List String) (k : String) :
    l.contains k = true ↔ k ∈ l := by
  simp [List.contains, List.elem_iff]

theorem mem_sadd (s : List String) (k x : String) :
    x ∈ sadd s k ↔ x ∈ s ∨ x = k := by
  unfold sadd
  by_cases h : s.contains k = true
  · rw [if_pos h]
    rw [contains_iff] at h
    constructor
    · exact fun hx => Or.inl hx
    · rintro (hx | hx)
      · exact hx
      · rw [hx]; exact h
  · rw [if_neg h]; simp

theorem mem_sdel (s : List String) (k x : String) :
    x ∈ sdel s k ↔ x ∈ s ∧ x ≠ k := by
  simp [sdel, List.mem_filter]

theorem mget_mset {α : Type} (m : List (String × α)) (k k' : String) (v : α) :
    mget (mset m k v) k' = if k' = k then some v else mget m k' := by
  induction m with
  | nil =>
    by_cases h : k' = k
    · subst h; simp [mset, mget]
    · have h2 : ¬(k = k') := fun hh => h hh.symm
      simp [mset, mget, h, h2]
  | cons e t ih =>
    by_cases he : e.1 = k
    · rw [mset, if_pos (by simp [he])]
      by_cases hk : k' = k
      · subst hk; simp [mget]
      · have h2 : ¬(k = k') := fun hh => hk hh.symm
        have h3 : ¬(e.1 = k') := fun hh => hk ((he.symm.trans hh).symm)
        simp [mget, h2, h3, hk]
    · rw [mset, if_neg (by simp [he])]
      by_cases hk : e.1 = k'
      · have h4 : ¬(k' = k) := fun hh => he (hk.trans hh)
        simp [mget, hk, h4]
      · simp [mget, hk, ih]

theorem mhas_mset {α : Type} (m : List (String × α)) (k k' : String) (v : α) :
    mhas (mset m k v) k' = if k' = k then true else mhas m k' := by
  unfold mhas
  rw [mget_mset]
  by_cases h : k' = k <;> simp [h]

theorem mdel_cons_hit {α : Type} (e : String × α) (t : List (String × α))
    (k : String) (he : e.1 = k) : mdel (e :: t) k = mdel t k := by
  simp [mdel, List.filter_cons, he]

theorem mdel_cons_miss {α : Type} (e : String × α) (t : List (String × α))
    (k : String) (he : ¬(e.1 = k)) : mdel (e :: t) k = e :: mdel t k := by
  simp [mdel, List.filter_cons, he]

theorem mget_mdel {α : Type} (m : List (String × α)) (k k' : String) :
    mget (mdel m k) k' = if k' = k then none else mget m k' := by
  induction m with
  | nil => by_cases h : k' = k <;> simp [mdel, mget, h]
  | cons e t ih =>
    by_cases he : e.1 = k
    · rw [mdel_cons_hit e t k he, ih]
      by_cases hk : k' = k
      · simp [hk]
      · have h3 : ¬(e.1 = k') := fun hh => hk ((he.symm.trans hh).symm)
        simp [mget, hk, h3]
    · rw [mdel_cons_miss e t k he]
      by_cases hk : e.1 = k'
      · have h4 : ¬(k' = k) := fun hh => he (hk.trans hh)
        simp [mget, hk, h4]
      · simp [mget, hk, ih]

theorem mhas_mdel {α : Type} (m : List (String × α)) (k k' : String) :
    mhas (mdel m k) k' = if k' = k then false else mhas m k' := by
  unfold mhas
  rw [mget_mdel]
  by_cases h : k' = k <;> simp [h]

theorem mem_mset {α : Type} (m : List (String × α)) (k : String) (v : α)
    (x : String × α) (hx : x ∈ mset m k v) : x = (k, v) ∨ x ∈ m := by
  induction m with
  | nil =>
    rw [mset] at hx
    simp at hx
    exact Or.inl hx
  | cons e t ih =>
    by_cases he : e.1 = k
    · rw [mset, if_pos (by simp [he])] at hx
      rcases List.mem_cons.mp hx with hx | hx
      · exact Or.inl hx
      · exact Or.inr (List.mem_cons_of_mem _ hx)
    · rw [mset, if_neg (by simp [he])] at hx
      rcases List.mem_cons.mp hx with hx | hx
      · exact Or.inr (hx ▸ List.mem_cons_self _ _)
      · rcases ih hx with h | h
        · exact Or.inl h
        · exact Or.inr (List.mem_cons_of_mem _ h)

theorem mem_mdel {α : Type} (m : List (String × α)) (k : String)
    (x : String × α) (hx : x ∈ mdel m k) : x ∈ m :=
  List.mem_of_mem_filter hx

/-! ## Lemmas about the path-string helpers -/

theorem dropWhile_head {α : Type} (q : α → Bool) :
    ∀ (l : List α) (a : α), (l.dropWhile q).head? = some a → q a = false := by
  intro l
  induction l with
  | nil => intro a h; simp [List.dropWhile] at h
  | cons c t ih =>
    intro a h
    rw [List.dropWhile_cons] at h
    by_cases hc : q c = true
    · rw [if_pos hc] at h; exact ih a h
    · rw [if_neg hc] at h
      rw [List.head?_cons, Option.some_inj] at h
      rw [← h]
      simp only [Bool.not_eq_true] at hc
      exact hc

theorem splitCh_ne_nil (sep : Char) (l : List Char) : splitCh sep l ≠ [] := by
  cases l with
  | nil => simp [splitCh]
  | cons c rest => simp only [splitCh]; split <;> simp

theorem splitCh_head_cases (sep : Char) (l : List Char) (t0 : List (List Char))
    (h : splitCh sep l = [] :: t0) : l = [] ∨ l.head? = some sep := by
  cases l with
  | nil => exact Or.inl rfl
  | cons c rest =>
    simp only [splitCh] at h
    by_cases hc : (c == sep) = true
    · right
      rw [beq_iff_eq] at hc
      simp [hc]
    · rw [if_neg hc] at h
      have h1 : c :: (splitCh sep rest).headD [] = [] := (List.cons.injEq _ _ _ _ ▸ h).1
      exact absurd h1 (by simp)

theorem joinSep_ne_two :
    ∀ (l : List String), 2 ≤ l.length → joinSep l ≠ "" := by
  intro l hl he
  cases l with
  | nil => simp at hl
  | cons a rest =>
    cases rest with
    | nil => simp at hl
    | cons b t =>
      have hj : joinSep (a :: b :: t) = a ++ "/" ++ joinSep (b :: t) := rfl
      rw [hj] at he
      have hlen := congrArg String.length he
      simp [String.length_append] at hlen
      exact absurd hlen.1.2 (by decide)

theorem norm_head (V : String → Bool) (p n : String)
    (h : normalizePath V p = .ok n) : n.data.head? ≠ some '/' := by
  unfold normalizePath at h
  by_cases h1 : isAbsolute p = true
  · rw [if_pos h1] at h; exact absurd h (by simp)
  · rw [if_neg h1] at h
    by_cases h2 : includesStr (stripLead p) ".." = true
    · rw [if_pos h2] at h; exact absurd h (by simp)
    · rw [if_neg h2] at h
      by_cases h3 : (!(V (stripLead p))) = true
      · rw [if_pos h3] at h; exact absurd h (by simp)
      · rw [if_neg h3] at h
        have hn : stripLead p = n := by injection h
        subst hn
        intro hh
        have := dropWhile_head (fun c => c == '/') (normSeps p).data '/' hh
        simp at this

theorem properPrefixes_no_root (k : String) (hk : k.data.head? ≠ some '/') :
    (properPrefixes k).contains "" = false := by
  by_contra hc
  rw [Bool.not_eq_false, contains_iff] at hc
  simp only [properPrefixes, List.mem_map, List.mem_filter, List.mem_range] at hc
  obtain ⟨i, ⟨hilt, hige⟩, hji⟩ := hc
  have h1 : 1 ≤ i := by simpa using hige
  by_cases h2 : 2 ≤ i
  · have hlen : ((splitSlash k).take i).length = i := by
      rw [List.length_take]
      exact Nat.min_eq_left (Nat.le_of_lt hilt)
    exact joinSep_ne_two _ (by rw [hlen]; exact h2) hji
  · have hi1 : i = 1 := by omega
    subst hi1
    obtain ⟨h0, t0, hsp⟩ : ∃ h0 t0, splitCh '/' k.data = h0 :: t0 := by
      cases hsc : splitCh '/' k.data with
      | nil => exact absurd hsc (splitCh_ne_nil _ _)
      | cons a b => exact ⟨a, b, rfl⟩
    have hparts : splitSlash k = String.mk h0 :: t0.map String.mk := by
      unfold splitSlash; rw [hsp]; rfl
    rw [hparts] at hji
    have hone : joinSep ((String.mk h0 :: t0.map String.mk).take 1)
        = String.mk h0 := rfl
    rw [hone] at hji
    have h0nil : h0 = [] := by
      have := congrArg String.data hji
      simpa using this
    rcases splitCh_head_cases '/' k.data t0 (h0nil ▸ hsp) with hnil | hhead
    · have hlen1 : (splitSlash k).length = 1 := by
        unfold splitSlash; rw [hnil]; rfl
      omega
    · exact hk hhead

/-! ## Structural lemmas about the mutating operations -/

theorem initState_overlay (arch : Option Archive) :
    (initState arch).overlayFiles = [] ∧ (initState arch).overlayDirs = []
    ∧ (initState arch).deleted = [] := by
  cases arch <;> exact ⟨rfl, rfl, rfl⟩

theorem writeFileOp_state (cfg : Config) (s : ZState) (p : String) (d : Bytes)
    (t : Nat) (md : Option Nat) :
    (writeFileOp cfg s p d t md).2 = s
    ∨ (∃ n, normalizePath cfg.validate p = .ok n ∧
        (writeFileOp cfg s p d t md).2 =
          { s with overlayDirs := ensureParentDirs s.overlayDirs n,
                   overlayFiles := mset s.overlayFiles n
                     (if cfg.overlayMemory then OverlayEntry.memory d t md
                      else OverlayEntry.disk d d.length t md),
                   deleted := sdel s.deleted n }) := by
  unfold writeFileOp
  cases hn : normalizePath cfg.validate p with
  | error e => exact Or.inl rfl
  | ok n => exact Or.inr ⟨n, rfl, rfl⟩

theorem mkdirCore_overlayFiles (s : ZState) (n : String) (r : Bool) :
    (mkdirCore s n r).2.overlayFiles = s.overlayFiles := by
  unfold mkdirCore
  repeat' split
  all_goals rfl

theorem mkdirCore_entries (s : ZState) (n : String) (r : Bool) :
    (mkdirCore s n r).2.entries = s.entries := by
  unfold mkdirCore
  repeat' split
  all_goals rfl

theorem mkdirCore_deleted (s : ZState) (n : String) (r : Bool) :
    (mkdirCore s n r).2.deleted = s.deleted := by
  unfold mkdirCore
  repeat' split
  all_goals rfl

theorem mkdirOp_state (cfg : Config) (s : ZState) (p : String) (r : Bool) :
    (mkdirOp cfg s p r).2 = s
    ∨ (∃ n, normalizePath cfg.validate p = .ok n ∧
        (mkdirOp cfg s p r).2 =
          (mkdirCore { s with deleted := sdel s.deleted n } n r).2) := by
  unfold mkdirOp
  cases hn : normalizePath cfg.validate p with
  | error e => exact Or.inl rfl
  | ok n => exact Or.inr ⟨n, rfl, rfl⟩

theorem unlinkOp_state (cfg : Config) (s : ZState) (p : String) :
    (unlinkOp cfg s p).2 = s
    ∨ (∃ n, (unlinkOp cfg s p).2 = { s with overlayFiles := mdel s.overlayFiles n })
    ∨ (∃ n, mhas s.overlayFiles n = false ∧
        (unlinkOp cfg s p).2 = { s with deleted := sadd s.deleted n }) := by
  unfold unlinkOp
  cases hn : normalizePath cfg.validate p with
  | error e => exact Or.inl rfl
  | ok n =>
    dsimp only
    by_cases h1 : s.deleted.contains n = true
    · rw [if_pos h1]; exact Or.inl rfl
    · rw [if_neg h1]
      by_cases h2 : s.overlayDirs.contains n = true
      · rw [if_pos h2]; exact Or.inl rfl
      · rw [if_neg h2]
        by_cases h3 : isDirectoryPath s n = true
        · rw [if_pos h3]; exact Or.inl rfl
        · rw [if_neg h3]
          by_cases h4 : mhas s.overlayFiles n = true
          · rw [if_pos h4]; exact Or.inr (Or.inl ⟨n, rfl⟩)
          · rw [if_neg h4]
            cases hm : mget s.entries n with
            | none => exact Or.inl rfl
            | some m =>
              dsimp only
              by_cases h5 : m.isDirectory = true
              · rw [if_pos h5]; exact Or.inl rfl
              · rw [if_neg h5]
                exact Or.inr (Or.inr ⟨n, Bool.eq_false_iff.mpr h4, rfl⟩)

theorem commitOp_state (cfg : Config) (s : ZState) (now : Nat) :
    ((commitOp cfg s now).overlayFiles = s.overlayFiles
      ∧ (commitOp cfg s now).overlayDirs = s.overlayDirs
      ∧ (commitOp cfg s now).deleted = s.deleted)
    ∨ ((commitOp cfg s now).overlayFiles = []
      ∧ (commitOp cfg s now).overlayDirs = []
      ∧ (commitOp cfg s now).deleted = []) := by
  unfold commitOp
  by_cases h : cfg.preserveOverlayOnCommit = true
  · rw [if_pos h]; exact Or.inl ⟨rfl, rfl, rfl⟩
  · rw [if_neg h]; exact Or.inr ⟨rfl, rfl, rfl⟩

/-! ## Invariants of reachable handle states -/

theorem reach_deleted_not_file {cfg : Config} {s : ZState} (h : Reach cfg s) :
    ∀ k, s.deleted.contains k = true → mhas s.overlayFiles k = false := by
  induction h with
  | init arch =>
    intro k hk
    rcases initState_overlay arch with ⟨_, _, hd⟩
    rw [hd] at hk
    simp at hk
  | wr s' p d t md hr ih =>
    intro k hk
    rcases writeFileOp_state cfg s' p d t md with hst | ⟨n, hn, hst⟩
    · rw [hst] at hk ⊢; exact ih k hk
    · rw [hst] at hk ⊢
      dsimp only at hk ⊢
      rw [contains_iff, mem_sdel] at hk
      obtain ⟨hk1, hk2⟩ := hk
      rw [mhas_mset, if_neg hk2]
      exact ih k ((contains_iff _ _).mpr hk1)
  | mkd s' p r hr ih =>
    intro k hk
    rcases mkdirOp_state cfg s' p r with hst | ⟨n, hn, hst⟩
    · rw [hst] at hk ⊢; exact ih k hk
    · rw [hst] at hk ⊢
      rw [mkdirCore_deleted] at hk
      rw [mkdirCore_overlayFiles]
      dsimp only at hk ⊢
      rw [contains_iff, mem_sdel] at hk
      exact ih k ((contains_iff _ _).mpr hk.1)
  | unl s' p hr ih =>
    intro k hk
    rcases unlinkOp_state cfg s' p with hst | ⟨n, hst⟩ | ⟨n, hnf, hst⟩
    · rw [hst] at hk ⊢; exact ih k hk
    · rw [hst] at hk ⊢
      dsimp only at hk ⊢
      rw [mhas_mdel]
      by_cases hkn : k = n
      · rw [if_pos hkn]
      · rw [if_neg hkn]; exact ih k hk
    · rw [hst] at hk ⊢
      dsimp only at hk ⊢
      rw [contains_iff, mem_sadd] at hk
      rcases hk with hk | hk
      · exact ih k ((contains_iff _ _).mpr hk)
      · rw [hk]; exact hnf
  | cmt s' now hr ih =>
    intro k hk
    rcases commitOp_state cfg s' now with ⟨hf, _, hd⟩ | ⟨hf, _, hd⟩
    · rw [hd] at hk; rw [hf]; exact ih k hk
    · rw [hd] at hk; simp at hk

theorem reach_blob_size {cfg : Config} {s : ZState} (h : Reach cfg s) :
    ∀ k e, mget s.overlayFiles k = some e →
      entryStatSize e = (entryData e).length := by
  induction h with
  | init arch =>
    intro k e hke
    rcases initState_overlay arch with ⟨hf, _, _⟩
    rw [hf] at hke
    simp [mget] at hke
  | wr s' p d t md hr ih =>
    intro k e hke
    rcases writeFileOp_state cfg s' p d t md with hst | ⟨n, hn, hst⟩
    · rw [hst] at hke; exact ih k e hke
    · rw [hst] at hke
      dsimp only at hke
      rw [mget_mset] at hke
      by_cases hkn : k = n
      · rw [if_pos hkn] at hke
        rw [Option.some_inj] at hke
        rw [← hke]
        by_cases hcm : cfg.overlayMemory = true
        · rw [if_pos hcm]; rfl
        · rw [if_neg hcm]; rfl
      · rw [if_neg hkn] at hke; exact ih k e hke
  | mkd s' p r hr ih =>
    intro k e hke
    rcases mkdirOp_state cfg s' p r with hst | ⟨n, hn, hst⟩
    · rw [hst] at hke; exact ih k e hke
    · rw [hst, mkdirCore_overlayFiles] at hke
      dsimp only at hke
      exact ih k e hke
  | unl s' p hr ih =>
    intro k e hke
    rcases unlinkOp_state cfg s' p with hst | ⟨n, hst⟩ | ⟨n, hnf, hst⟩
    · rw [hst] at hke; exact ih k e hke
    · rw [hst] at hke
      dsimp only at hke
      rw [mget_mdel] at hke
      by_cases hkn : k = n
      · rw [if_pos hkn] at hke; exact absurd hke (by simp)
      · rw [if_neg hkn] at hke; exact ih k e hke
    · rw [hst] at hke
      dsimp only at hke
      exact ih k e hke
  | cmt s' now hr ih =>
    intro k e hke
    rcases commitOp_state cfg s' now with ⟨hf, _, _⟩ | ⟨hf, _, _⟩
    · rw [hf] at hke; exact ih k e hke
    · rw [hf] at hke; simp [mget] at hke

theorem reach_keys_good {cfg : Config} {s : ZState} (h : Reach cfg s) :
    ∀ x ∈ s.overlayFiles, x.1.data.head? ≠ some '/' := by
  induction h with
  | init arch =>
    intro x hx
    rcases initState_overlay arch with ⟨hf, _, _⟩
    rw [hf] at hx
    simp at hx
  | wr s' p d t md hr ih =>
    intro x hx
    rcases writeFileOp_state cfg s' p d t md with hst | ⟨n, hn, hst⟩
    · rw [hst] at hx; exact ih x hx
    · rw [hst] at hx
      dsimp only at hx
      rcases mem_mset _ _ _ _ hx with hx | hx
      · rw [hx]; exact norm_head cfg.validate p n hn
      · exact ih x hx
  | mkd s' p r hr ih =>
    intro x hx
    rcases mkdirOp_state cfg s' p r with hst | ⟨n, hn, hst⟩
    · rw [hst] at hx; exact ih x hx
    · rw [hst, mkdirCore_overlayFiles] at hx
      dsimp only at hx
      exact ih x hx
  | unl s' p hr ih =>
    intro x hx
    rcases unlinkOp_state cfg s' p with hst | ⟨n, hst⟩ | ⟨n, hnf, hst⟩
    · rw [hst] at hx; exact ih x hx
    · rw [hst] at hx
      dsimp only at hx
      exact ih x (mem_mdel _ _ _ hx)
    · rw [hst] at hx
      dsimp only at hx
      exact ih x hx
  | cmt s' now hr ih =>
    intro x hx
    rcases commitOp_state cfg s' now with ⟨hf, _, _⟩ | ⟨hf, _, _⟩
    · rw [hf] at hx; exact ih x hx
    · rw [hf] at hx; simp at hx

/-! ## Claim theorems -/

/-- Claim C1 (code bug): on a base archive carrying file `f`, after
`writeFile("f", [9])` then a successful `unlink("f")`, the deletion set
stays empty — `unlink` removed only the overlay entry and returned — so
`readFile("f")` succeeds with the *base* bytes `[1, 2, 3]` instead of
failing NotFound as the claim (and spec §8) require. -/
theorem C1_unlink_after_shadowing_write_resurrects_base :
    (writeFileOp cfg0 (initState (some archC1)) "f" [9] 0 none).1 = .ok ()
    ∧ (unlinkOp cfg0 sC1w "f").1 = .ok ()
    ∧ (unlinkOp cfg0 sC1w "f").2.deleted = []
    ∧ readFileCore (unlinkOp cfg0 sC1w "f").2 "f" = .ok [1, 2, 3] := by
  decide

/-- Claim C2 (code bug): `mkdir("a/b/c", recursive: true)` on an empty
handle succeeds and makes `a/b/c` and `a/b` report directories, but
`stat("a")` fails NotFound: `ensureParentDirs` starts its loop at the
second segment and never synthesizes the single-segment ancestor, while
the claim (and spec §8) require every proper prefix to report a
directory. -/
theorem C2_recursive_mkdir_misses_first_segment :
    (mkdirOp cfg0 (initState none) "a/b/c" true).1 = .ok ()
    ∧ statCore sC2 "a/b/c" 7 = .ok ⟨false, true, 0, 7, none⟩
    ∧ statCore sC2 "a/b" 7 = .ok ⟨false, true, 0, 7, none⟩
    ∧ statCore sC2 "a" 7 = .error (.enoent "a") := by
  decide

/-- Claim C3 (code bug): after `mkdir("d")` and a first `commit`, the
directory `d` is readable (`stat` reports a directory, `readdir("")`
lists it); a second `commit` with no staged changes drops it — `commit`
re-adds only non-directory base entries, so the base empty-directory
entry vanishes and `stat("d")` fails NotFound — contradicting the
claimed idempotence of commit on the readable content set. -/
theorem C3_second_commit_drops_base_empty_directory :
    statCore sC3b "d" 9 = .ok ⟨false, true, 0, 5, none⟩
    ∧ readdirCore sC3b "" = .ok ["d"]
    ∧ statCore sC3c "d" 9 = .error (.enoent "d")
    ∧ readdirCore sC3c "" = .ok [] := by
  decide

/-- Claim C4 (code bug): with base file `f` unlinked (deletion set
`["f"]`), the failing call `mkdir("f")` throws AlreadyExists yet clears
the deletion entry first, so the failed operation mutates overlay state
— afterwards `readFile("f")` succeeds again — contradicting the claim
(and spec §7) that no operation partially applies before failing. -/
theorem C4_failing_mkdir_clears_deletion_entry :
    sC4.deleted = ["f"]
    ∧ (mkdirOp cfg0 sC4 "f" false).1 = .error (.eexist "f")
    ∧ (mkdirOp cfg0 sC4 "f" false).2.deleted = []
    ∧ readFileCore (mkdirOp cfg0 sC4 "f" false).2 "f" = .ok [1, 2, 3] := by
  decide

/-- Claim C5 (code bug): after `writeFile("a/b.txt", [1])` on an empty
handle, `a` is a top-level implicit overlay directory (`stat("a")`
reports a directory), yet `readdir("")` returns the empty list instead
of listing `a`: the root listing only consults the explicit
overlay-directory set, which never receives single-segment ancestors. -/
theorem C5_root_readdir_misses_toplevel_implicit_dir :
    readdirCore sC5 "" = .ok []
    ∧ statCore sC5 "a" 3 = .ok ⟨false, true, 0, 3, none⟩ := by
  decide

/-- Claim C6 counterexample: the relative path `a..b.txt`, whose single
segment merely contains `..` as a substring, *is* rejected by
`normalizePath` — and with an accept-everything validator and a
non-absolute input the only possible ground is the `..` check —
refuting the claim that such names are not rejected on the `..`
ground. -/
theorem C6_counterexample :
    normalizePath (fun _ => true) "a..b.txt" = .error (.invalidPath "a..b.txt")
    ∧ isAbsolute "a..b.txt" = false := by
  decide

/-- Claim C6 (amended): `normalizePath` fails exactly when the input is
an absolute path, when the separator-normalised, leading-slash-stripped
form contains `..` as a *substring* anywhere (so `a..b.txt` is
rejected), or when the delegated archive-naming validator rejects the
stripped form — for every validator `V`. -/
theorem C6_amended (V : String → Bool) (p : String) :
    (∃ q, normalizePath V p = .error (.invalidPath q)) ↔
      (isAbsolute p = true ∨ includesStr (stripLead p) ".." = true
        ∨ V (stripLead p) = false) := by
  unfold normalizePath
  by_cases h1 : isAbsolute p = true
  · rw [if_pos h1]
    simp [h1]
  · rw [if_neg h1]
    by_cases h2 : includesStr (stripLead p) ".." = true
    · rw [if_pos h2]
      simp [h2]
    · rw [if_neg h2]
      by_cases h3 : V (stripLead p) = false
      · rw [if_pos (by simp [h3])]
        simp [h3]
      · have h3t : V (stripLead p) = true := by
          cases hv : V (stripLead p)
          · exact absurd hv h3
          · rfl
        rw [if_neg (by simp [h3t])]
        simp [h1, h2, h3t]

/-- Claim C6 witness: the amended failure condition instantiated at the
accept-everything validator and the relative key `x/y`. -/
theorem C6_amended_witness :
    (∃ q, normalizePath (fun _ => true) "x/y" = .error (.invalidPath q)) ↔
      (isAbsolute "x/y" = true ∨ includesStr (stripLead "x/y") ".." = true
        ∨ (fun (_ : String) => true) (stripLead "x/y") = false) :=
  C6_amended (fun _ => true) "x/y"

/-- Claim C7 counterexample: with `p` present only as an overlay *file*,
`mkdir("p/q")` without recursive succeeds — `pathExists` accepts a file
parent — rather than failing NotFound as the claim states for a parent
that does not resolve to an existing directory. -/
theorem C7_counterexample :
    mhas sC7.overlayFiles "p" = true
    ∧ isDirectoryPath sC7 "p" = false
    ∧ (mkdirOp cfg0 sC7 "p/q" false).1 = .ok () := by
  decide

/-- Claim C7 (amended): for a key normalising to `n`, non-recursive
`mkdir` fails AlreadyExists when `n` is an explicit overlay directory or
any base entry; fails NotFound when the immediate parent neither exists
(per `pathExists` on the deletion-cleared state) nor is a directory
path; and *succeeds* when the parent exists as a live overlay file —
the parent-is-a-file case the original claim said must fail NotFound. -/
theorem C7_amended (cfg : Config) (s : ZState) (p n : String)
    (hn : normalizePath cfg.validate p = .ok n) :
    (s.overlayDirs.contains n = true →
        (mkdirOp cfg s p false).1 = .error (.eexist n))
    ∧ (s.overlayDirs.contains n = false → (mget s.entries n).isSome = true →
        (mkdirOp cfg s p false).1 = .error (.eexist n))
    ∧ (s.overlayDirs.contains n = false → mget s.entries n = none →
        1 < (splitSlash n).length →
        pathExists { s with deleted := sdel s.deleted n }
          (joinSep (splitSlash n).dropLast) = false →
        isDirectoryPath { s with deleted := sdel s.deleted n }
          (joinSep (splitSlash n).dropLast) = false →
        (mkdirOp cfg s p false).1 =
          .error (.enoent (joinSep (splitSlash n).dropLast)))
    ∧ (s.overlayDirs.contains n = false → mget s.entries n = none →
        mhas s.overlayFiles (joinSep (splitSlash n).dropLast) = true →
        s.deleted.contains (joinSep (splitSlash n).dropLast) = false →
        (mkdirOp cfg s p false).1 = .ok ()) := by
  have hop : mkdirOp cfg s p false
      = mkdirCore { s with deleted := sdel s.deleted n } n false := by
    unfold mkdirOp
    rw [hn]
  refine ⟨?_, ?_, ?_, ?_⟩
  · intro h1
    rw [hop]
    unfold mkdirCore
    rw [if_pos h1]
    rfl
  · intro h1 h2
    rw [hop]
    unfold mkdirCore
    rw [if_neg (by rw [h1]; simp), if_pos h2]
    rfl
  · intro h1 h2 hlen hpe hid
    rw [hop]
    unfold mkdirCore
    rw [if_neg (by rw [h1]; simp), if_neg (by rw [h2]; simp),
        if_neg (by simp : ¬((false : Bool) = true)), if_pos hlen,
        if_pos (by rw [hpe, hid]; rfl)]
  · intro h1 h2 hmf hdel
    have hdel1 : (sdel s.deleted n).contains
        (joinSep (splitSlash n).dropLast) = false := by
      by_contra hc
      rw [Bool.not_eq_false, contains_iff, mem_sdel] at hc
      exact absurd ((contains_iff _ _).mpr hc.1) (by rw [hdel]; simp)
    have hpe : pathExists { s with deleted := sdel s.deleted n }
        (joinSep (splitSlash n).dropLast) = true := by
      unfold pathExists
      rw [if_neg (by rw [hdel1]; simp)]
      dsimp only
      rw [hmf]
      rfl
    rw [hop]
    unfold mkdirCore
    rw [if_neg (by rw [h1]; simp), if_neg (by rw [h2]; simp),
        if_neg (by simp : ¬((false : Bool) = true))]
    by_cases hlen : (splitSlash n).length > 1
    · rw [if_pos hlen, if_neg (by rw [hpe]; simp)]
    · rw [if_neg hlen]

/-- Claim C7 witness: on the state holding explicit overlay directory
`a/b`, non-recursive `mkdir("a/b")` fails AlreadyExists, by the amended
theorem. -/
theorem C7_amended_witness :
    (mkdirOp cfg0 sC7b "a/b" false).1 = .error (.eexist "a/b") :=
  (C7_amended cfg0 sC7b "a/b" "a/b" (by decide)).1 (by decide)

/-- Claim C10 counterexample: `mkdir("")` succeeds (the empty key passes
`normalizePath` under the shipped validator) and puts the root key into
the explicit overlay-directory set, after which `stat("")` reports a
directory — so the root key does not fail NotFound in every reachable
handle state. -/
theorem C10_counterexample :
    Reach cfg0 sC10
    ∧ statOp cfg0 sC10 "" 0 = .ok ⟨false, true, 0, 0, none⟩ := by
  constructor
  · exact Reach.mkd (initState none) "" false (Reach.init none)
  · decide

/-- Claim C8: in every reachable handle state, `stat` resolves a key by
exactly the claimed precedence — live overlay file (file, size = blob
length, stored metadata), else explicit overlay directory, else deleted
key NotFound, else base entry, else implicit directory from live overlay
file prefixes, else NotFound. -/
theorem C8_stat_precedence {cfg : Config} {s : ZState} (h : Reach cfg s)
    (n : String) (now : Nat) : statCore s n now = statRef s n now := by
  cases hov : mget s.overlayFiles n with
  | some e =>
    have hdel : s.deleted.contains n = false := by
      by_contra hc
      rw [Bool.not_eq_false] at hc
      have hmf := reach_deleted_not_file h n hc
      rw [mhas, hov] at hmf
      simp at hmf
    unfold statCore statRef
    rw [hov]
    dsimp only
    rw [if_neg (by rw [hdel]; simp)]
    have hsz := reach_blob_size h n e hov
    rw [hsz]
  | none =>
    unfold statCore statRef statRefRest
    rw [hov]
    dsimp only
    by_cases h1 : s.overlayDirs.contains n = true
    · rw [if_pos h1, if_pos h1]
    · rw [if_neg h1, if_neg h1]
      by_cases h2 : s.deleted.contains n = true
      · rw [if_pos h2, if_pos h2]
      · rw [if_neg h2, if_neg h2]
        cases hent : mget s.entries n with
        | some m => rfl
        | none =>
          dsimp only
          have heq : isDirectoryPath s n = implicitDirOfLiveFiles s n := by
            unfold isDirectoryPath implicitDirOfLiveFiles
            have h1f : s.overlayDirs.contains n = false := by
              cases hb : s.overlayDirs.contains n
              · rfl
              · exact absurd hb h1
            rw [h1f, hent]
            simp
          rw [heq]

/-- Claim C8 witness: the precedence equation instantiated on the empty
initial handle at key `x`. -/
theorem C8_stat_precedence_witness :
    statCore (initState none) "x" 0 = statRef (initState none) "x" 0 :=
  @C8_stat_precedence cfg0 (initState none) (Reach.init none) "x" 0

/-- Claim C9 counterexample: from the base archive holding file `a/b`,
the reachable sequence `unlink("a/b")` then `writeFile("a/b/x")` leaves
the key `a/b` simultaneously in the deletion set and in the explicit
overlay-directory set, refuting the claimed disjointness for overlay
*directory* entries. -/
theorem C9_counterexample :
    Reach cfg0 sC9
    ∧ sC9.deleted.contains "a/b" = true
    ∧ sC9.overlayDirs.contains "a/b" = true := by
  refine ⟨?_, by decide, by decide⟩
  exact Reach.wr sC9u "a/b/x" [1] 0 none
    (Reach.unl (initState (some archC9)) "a/b" (Reach.init (some archC9)))

/-- Claim C9 (amended): in every reachable handle state, no key is
simultaneously in the deletion set and a key of the overlay *file* map:
writing clears the pending deletion for its key and unlink only marks
keys that no overlay file holds. -/
theorem C9_amended {cfg : Config} {s : ZState} (h : Reach cfg s)
    (k : String) (hk : s.deleted.contains k = true) :
    mhas s.overlayFiles k = false :=
  reach_deleted_not_file h k hk

/-- Claim C9 witness: after unlinking base file `a/b`, the deleted key
`a/b` is not an overlay-file key, by the amended invariant. -/
theorem C9_amended_witness : mhas sC9u.overlayFiles "a/b" = false :=
  C9_amended
    (Reach.unl (initState (some archC9)) "a/b" (Reach.init (some archC9)))
    "a/b" (by decide)

/-- Claim C10 (amended): in every reachable state in which the root key
(the empty string) is absent from the overlay file map, the explicit
overlay-directory set, the deletion set, and the base index, `stat` of
the root fails NotFound — the implicit-directory scan starts at
length-1 prefixes and never produces the root — while `readdir` of the
root succeeds in that same state. -/
theorem C10_amended {cfg : Config} {s : ZState} (h : Reach cfg s) (now : Nat)
    (hF : mhas s.overlayFiles "" = false)
    (hD : s.overlayDirs.contains "" = false)
    (hDel : s.deleted.contains "" = false)
    (hE : mget s.entries "" = none) :
    statCore s "" now = .error (.enoent "")
    ∧ (∃ l, readdirCore s "" = .ok l) := by
  have hovn : mget s.overlayFiles "" = none := by
    cases hx : mget s.overlayFiles "" with
    | none => rfl
    | some v => rw [mhas, hx] at hF; simp at hF
  have hdir : isDirectoryPath s "" = false := by
    unfold isDirectoryPath
    rw [hD, hE]
    dsimp only
    simp only [Bool.false_or]
    rw [List.any_eq_false]
    intro x hx
    have hgood := reach_keys_good h x hx
    have hpp := properPrefixes_no_root x.1 hgood
    rw [hpp]
    simp
  constructor
  · unfold statCore
    rw [hovn]
    dsimp only
    rw [if_neg (by rw [hD]; simp), if_neg (by rw [hDel]; simp), hE]
    dsimp only
    rw [if_neg (by rw [hdir]; simp)]
  · rcases hr : readdirCore s "" with e | l
    · exfalso
      unfold readdirCore at hr
      rw [if_neg (by rw [hDel]; simp)] at hr
      dsimp only at hr
      have hne : (("" : String) != "") = false := by decide
      rw [hne] at hr
      simp at hr
    · exact ⟨l, rfl⟩

/-- Claim C10 witness: on the freshly opened empty handle, stat of the
root fails NotFound while readdir of the root succeeds, by the amended
theorem. -/
theorem C10_amended_witness :
    statCore (initState none) "" 3 = .error (.enoent "")
    ∧ (∃ l, readdirCore (initState none) "" = .ok l) :=
  @C10_amended cfg0 (initState none) (Reach.init none) 3 (by decide)
    (by decide) (by decide) (by decide)

end ZipFS
